import Mathlib

/-!
Verification of the order-extraction pipeline of the Amazon repository.

Shallow embedding of the code under `src/`:
* `src/infrastructure/decorators/retry_decorator.py` (`async_retry`, `sync_retry`),
* `src/core/order_service.py` (`OrderExtractionService.extract_orders`,
  `_should_retry`, `_process_orders_batch`),
* `src/core/extraction_strategies.py` (the four strategies),
* `src/infrastructure/rate_limiter.py` (`RateLimiter`).

Time is modelled as `ℚ` (seconds); `asyncio.sleep` advances an explicit clock;
exceptions become explicit result constructors.  Definitions come first,
theorems afterwards.
-/

/- ## Definitions -/

/- ### Retry decorators, `src/infrastructure/decorators/retry_decorator.py` -/

/-- Result of a wrapped call: `ok` is a normal return, `raised` is an exception
propagating out of the wrapper (either the final matched attempt re-raising, or a
non-matched exception escaping the `except` clause), `maxRetriesExceeded` is the
`RuntimeError("Max retries exceeded")` raised after the loop when no attempt ran. -/
inductive RetryResult (ε α : Type) where
  | ok : α → RetryResult ε α
  | raised : ε → RetryResult ε α
  | maxRetriesExceeded : RetryResult ε α
deriving DecidableEq

/-- Observable trace of one call of the wrapped function: how many times the
wrapped operation was invoked, the list of back-off sleeps performed (in order),
and the final result. -/
structure RetryTrace (ε α : Type) where
  invocations : ℕ
  waits : List ℕ
  result : RetryResult ε α
deriving DecidableEq

/-- The `for retry_count in range(max_retries)` loop of `async_retry.wrapper`.
`op k` is the outcome of invoking the wrapped function on attempt `k` (0-based);
`matched e` models `except exceptions as e` catching `e`; `remaining` is the
number of loop iterations left and `lastExc` the `last_exception` variable.
On the last attempt (`remaining = 0` after this one) a caught exception is
re-raised; otherwise the wrapper sleeps `backoff_base ** retry_count` and
retries.  A non-matched exception escapes the loop at once. -/
def retryLoop (matched : ε → Bool) (op : ℕ → Except ε α) (backoffBase : ℕ) :
    ℕ → ℕ → Option ε → RetryTrace ε α
  | _, 0, lastExc =>
    { invocations := 0, waits := [],
      result := match lastExc with
        | some e => .raised e
        | none => .maxRetriesExceeded }
  | attempt, remaining + 1, _ =>
    match op attempt with
    | .ok a => { invocations := 1, waits := [], result := .ok a }
    | .error e =>
      if matched e then
        if remaining = 0 then
          { invocations := 1, waits := [], result := .raised e }
        else
          let rest := retryLoop matched op backoffBase (attempt + 1) remaining (some e)
          { invocations := rest.invocations + 1,
            waits := backoffBase ^ attempt :: rest.waits,
            result := rest.result }
      else { invocations := 1, waits := [], result := .raised e }

/-- `async_retry(max_retries, backoff_base, exceptions)` applied to an operation:
run the attempt loop from attempt 0 with `last_exception = None`. -/
def asyncRetry (matched : ε → Bool) (op : ℕ → Except ε α)
    (backoffBase maxRetries : ℕ) : RetryTrace ε α :=
  retryLoop matched op backoffBase 0 maxRetries none

/-- `sync_retry` has the same control flow as `async_retry` (the body of
`sync_retry.wrapper` differs only in using `time.sleep` and having no
`on_retry` hook, neither of which changes the trace). -/
def syncRetry (matched : ε → Bool) (op : ℕ → Except ε α)
    (backoffBase maxRetries : ℕ) : RetryTrace ε α :=
  retryLoop matched op backoffBase 0 maxRetries none

/- ### Orchestrator top-level retry, `src/core/order_service.py` -/

/-- `pat` is a prefix of the character list (used to embed Python's substring
test `retry_error in error_str`). -/
def charsPrefixOf : List Char → List Char → Bool
  | [], _ => true
  | _ :: _, [] => false
  | a :: as, b :: bs => a == b && charsPrefixOf as bs

/-- `pat` occurs as a contiguous substring of `s` (Python's `pat in s`). -/
def charsSubstr (pat : List Char) : List Char → Bool
  | [] => charsPrefixOf pat []
  | b :: bs => charsPrefixOf pat (b :: bs) || charsSubstr pat bs

/-- `OrderExtractionService._should_retry`: the error's string representation
contains one of the transient signatures. -/
def shouldRetry (errorStr : String) : Bool :=
  ["ConnectionError", "TimeoutError", "429"].any
    (fun retryError => charsSubstr retryError.toList errorStr.toList)

/-- Final outcome of `extract_orders`: normal return, an exception propagating
to the caller, or exhaustion of the modelled recursion depth. -/
inductive RunOutcome where
  | success : RunOutcome
  | failed : String → RunOutcome
  | outOfFuel : RunOutcome
deriving DecidableEq

/-- Observable trace of `extract_orders`: number of invocations of the
try-block, number of 30-second cool-down sleeps, and the outcome. -/
structure RunTrace where
  invocations : ℕ
  sleeps : ℕ
  outcome : RunOutcome
deriving DecidableEq

/-- `OrderExtractionService.extract_orders`'s retry control flow.  `outcome k`
is what the `k`-th invocation of the try-block does (`none` = returns normally,
`some msg` = raises an exception whose string is `msg`).  On an exception the
code reports it and, when `_should_retry` matches, sleeps 30 s and re-invokes
`extract_orders(config)` recursively (`return await self.extract_orders(config)`
— there is no recursion bound in the code, hence the explicit `fuel`);
otherwise it re-raises. -/
def extractOrdersAux (outcome : ℕ → Option String) : ℕ → ℕ → RunTrace
  | _, 0 => { invocations := 0, sleeps := 0, outcome := .outOfFuel }
  | k, fuel + 1 =>
    match outcome k with
    | none => { invocations := 1, sleeps := 0, outcome := .success }
    | some msg =>
      if shouldRetry msg then
        let rest := extractOrdersAux outcome (k + 1) fuel
        { invocations := rest.invocations + 1, sleeps := rest.sleeps + 1,
          outcome := rest.outcome }
      else { invocations := 1, sleeps := 0, outcome := .failed msg }

/-- `extract_orders(config)` as called from the outside (first invocation is
index 0). -/
def extractOrders (outcome : ℕ → Option String) (fuel : ℕ) : RunTrace :=
  extractOrdersAux outcome 0 fuel

/- ### Extraction strategies, `src/core/extraction_strategies.py` -/

/-- An order record as handled by the strategies: the three fields the
comparison logic reads. -/
structure OrderRec where
  amazonOrderId : String
  orderStatus : String
  lastUpdateDate : String
deriving DecidableEq

/-- The API collaborator as seen by the strategies: `get_order_status(id)`
(`none` models a falsy result) and the result of the configured
`get_orders_paginated` fetch. -/
structure ApiClient where
  getOrderStatus : String → Option OrderRec
  getOrdersPaginated : List OrderRec
deriving Inhabited

/-- The persistence collaborator as seen by the strategies: the results of
`orders.get_pending_orders()` and `orders.get_stale_orders(...)`. -/
structure DbManager where
  pendingOrders : List OrderRec
  staleOrders : List OrderRec
deriving DecidableEq

/-- `ExtractionStrategy.__init__(api_client, db_manager=None)`: stores the two
collaborators.  It performs no validation, so construction always succeeds
(this is a total function). -/
structure ExtractionStrategy where
  apiClient : ApiClient
  dbManager : Option DbManager

/-- `ExtractionStrategy.__init__` as a constructor call. -/
def mkExtractionStrategy (apiClient : ApiClient) (dbManager : Option DbManager) :
    ExtractionStrategy :=
  { apiClient := apiClient, dbManager := dbManager }

/-- `IncrementalExtraction.extract`: raises
`ValueError("DatabaseManager required for incremental extraction")` when
`db_manager` is falsy, otherwise returns the paginated fetch. -/
def incrementalExtract (s : ExtractionStrategy) : Except String (List OrderRec) :=
  match s.dbManager with
  | none => .error "DatabaseManager required for incremental extraction"
  | some _ => .ok s.apiClient.getOrdersPaginated

/-- `StatusUpdateExtraction._has_status_changed`. -/
def hasStatusChanged (oldOrder newOrder : OrderRec) : Bool :=
  oldOrder.orderStatus != newOrder.orderStatus ||
    oldOrder.lastUpdateDate != newOrder.lastUpdateDate

/-- The loop of `StatusUpdateExtraction.extract`: for each pending order fetch
`get_order_status` and keep the fetched record when it is truthy and
`_has_status_changed` holds. -/
def statusUpdateCollect (pending : List OrderRec)
    (getStatus : String → Option OrderRec) : List OrderRec :=
  pending.filterMap fun order =>
    match getStatus order.amazonOrderId with
    | some currentStatus =>
      if hasStatusChanged order currentStatus then some currentStatus else none
    | none => none

/-- `StatusUpdateExtraction.extract`: dereferences `self.db_manager.orders`
without a `None` check, so a missing collaborator surfaces as an
`AttributeError` at call time. -/
def statusUpdateExtract (s : ExtractionStrategy) : Except String (List OrderRec) :=
  match s.dbManager with
  | none => .error "AttributeError: NoneType object has no attribute orders"
  | some db => .ok (statusUpdateCollect db.pendingOrders s.apiClient.getOrderStatus)

/-- Python dict assignment `d[key] = v` on an insertion-ordered dictionary:
overwrite in place if the key exists, else append the new key at the end. -/
def dictInsert (d : List (String × OrderRec)) (key : String) (v : OrderRec) :
    List (String × OrderRec) :=
  if d.any (fun p => p.1 == key) then
    d.map (fun p => if p.1 == key then (key, v) else p)
  else d ++ [(key, v)]

/-- `{order['amazonOrderId']: order for order in l}` — an insertion-ordered
dictionary keyed by order id (later duplicates overwrite earlier ones). -/
def dictOfOrders (l : List OrderRec) : List (String × OrderRec) :=
  l.foldl (fun d o => dictInsert d o.amazonOrderId o) []

/-- Python `d[key]` / `key in d` on the association list. -/
def dictFind (d : List (String × OrderRec)) (key : String) : Option OrderRec :=
  (d.find? (fun p => p.1 == key)).map (fun p => p.2)

/-- `WeeklyCatchUpExtraction._needs_refresh`: `orderStatus` or `lastUpdateDate`
differs.  (The `if not api_order: return False` guard never fires on the
records iterated from the api dict.) -/
def needsRefresh (dbOrder apiOrder : OrderRec) : Bool :=
  dbOrder.orderStatus != apiOrder.orderStatus ||
    dbOrder.lastUpdateDate != apiOrder.lastUpdateDate

/-- The partition loop of `WeeklyCatchUpExtraction.extract`: iterate over the
api dict in insertion order; an id also in the stale dict whose record needs a
refresh goes to `orders_to_delete` and `orders_to_insert`, an id not in the
stale dict goes only to `orders_to_insert`, anything else is dropped. -/
def weeklyPartition (staleOrders apiOrders : List OrderRec) :
    List String × List OrderRec :=
  let staleDict := dictOfOrders staleOrders
  let apiDict := dictOfOrders apiOrders
  apiDict.foldl
    (fun acc kv =>
      match dictFind staleDict kv.1 with
      | some dbOrder =>
        if needsRefresh dbOrder kv.2 then (acc.1 ++ [kv.1], acc.2 ++ [kv.2])
        else acc
      | none => (acc.1, acc.2 ++ [kv.2]))
    ([], [])

/-- A persistence effect of `WeeklyCatchUpExtraction.extract`, in order:
the `delete_orders` call (issued only when the delete list is non-empty) and
the final `return` of the records to insert. -/
inductive DbEvent where
  | deleteOrders : List String → DbEvent
  | returned : List OrderRec → DbEvent
deriving DecidableEq

/-- `WeeklyCatchUpExtraction.extract` as its ordered effect trace: partition,
then `delete_orders(orders_to_delete)` if non-empty, then return
`orders_to_insert`.  A missing `db_manager` is an `AttributeError` at call
time. -/
def weeklyCatchUpExtract (s : ExtractionStrategy) : Except String (List DbEvent) :=
  match s.dbManager with
  | none => .error "AttributeError: NoneType object has no attribute orders"
  | some db =>
    let p := weeklyPartition db.staleOrders s.apiClient.getOrdersPaginated
    .ok ((if p.1 = [] then [] else [DbEvent.deleteOrders p.1]) ++
      [DbEvent.returned p.2])

/- ### Orchestrator batching, `src/core/order_service.py` -/

/-- The argument lists of the successive `upsert_orders` calls issued by
`OrderExtractionService._process_orders_batch`: the loop
`for i in range(0, len(orders), batch_size)` upserts `orders[i:i+batch_size]`
per iteration; in `STATUS_UPDATE` mode it returns right after the first upsert.
(`batch_size = 0` would be a `ValueError` from `range`; `ExtractionConfig`
rejects it at construction.) -/
def processOrdersBatchUpserts (isStatusUpdate : Bool) (batchSize : ℕ) :
    List α → List (List α)
  | [] => []
  | o :: os =>
    if batchSize = 0 then []
    else if isStatusUpdate then [(o :: os).take batchSize]
    else
      (o :: os).take batchSize ::
        processOrdersBatchUpserts isStatusUpdate batchSize ((o :: os).drop batchSize)
termination_by orders => orders.length
decreasing_by
  rename_i h
  simp only [List.length_drop, List.length_cons]
  omega

/- ### Rate limiter, `src/infrastructure/rate_limiter.py` -/

/-- Per-endpoint state of `RateLimiter`, plus an explicit clock and a ghost
log.  `history` is `request_history[endpoint]` (a deque of admission
timestamps, oldest first), `retryDelay` is `retry_delays[endpoint]`, `now` the
current value of `time.time()`.  `granted` is a ghost log of every timestamp
ever appended to the history (entries are never removed from it); it is not
part of the Python state and only serves to state the rolling-window
property. -/
structure RateLimiterState where
  history : List ℚ
  retryDelay : ℚ
  now : ℚ
  granted : List ℚ
deriving DecidableEq

/-- `RateLimiter.__init__` state for one endpoint: empty history and
`retry_delays[endpoint] = 0.0`.  (Because of this seeding, the fallback `1.0`
in `self.retry_delays.get(endpoint, 1.0)` of `handle_rate_limit_error` is
dead: the key is always present.) -/
def initLimiterState (t0 : ℚ) : RateLimiterState :=
  { history := [], retryDelay := 0, now := t0, granted := [] }

/-- `RateLimiter._cleanup_old_requests`: pop entries from the left while the
oldest is strictly older than `now - window_seconds`. -/
def cleanupOldRequests (window now : ℚ) : List ℚ → List ℚ
  | [] => []
  | t :: ts => if t < now - window then cleanupOldRequests window now ts else t :: ts

/-- `RateLimiter._calculate_sleep_time`: time until the oldest request leaves
the window, plus a `0.1` s buffer; `0` on an empty history. -/
def calculateSleepTime (window now : ℚ) (history : List ℚ) : ℚ :=
  match history with
  | [] => 0
  | oldest :: _ => max 0 (window - (now - oldest) + 1 / 10)

/-- `RateLimiter._wait_for_endpoint_limit` (the body of `acquire(endpoint)`):
clean the history, sleep and clear any pending retry delay, then if the
remaining count has reached `max_requests` sleep `_calculate_sleep_time` (when
positive) and clean again, and finally append the current time to the
history. -/
def waitForEndpointLimit (maxRequests : ℕ) (window : ℚ)
    (s : RateLimiterState) : RateLimiterState :=
  let h1 := cleanupOldRequests window s.now s.history
  let t1 := if 0 < s.retryDelay then s.now + s.retryDelay else s.now
  let d1 := if 0 < s.retryDelay then (0 : ℚ) else s.retryDelay
  if maxRequests ≤ h1.length then
    let st := calculateSleepTime window t1 h1
    if 0 < st then
      let t2 := t1 + st
      let h2 := cleanupOldRequests window t2 h1
      { history := h2 ++ [t2], retryDelay := d1, now := t2,
        granted := s.granted ++ [t2] }
    else
      { history := h1 ++ [t1], retryDelay := d1, now := t1,
        granted := s.granted ++ [t1] }
  else
    { history := h1 ++ [t1], retryDelay := d1, now := t1,
      granted := s.granted ++ [t1] }

/-- `RateLimiter.handle_rate_limit_error(endpoint, retry_after)`: with a truthy
`retry_after` sleep that long (the stored backoff is not modified); otherwise
double the stored backoff (`self.retry_delays.get(endpoint, 1.0)` — the key is
always present, seeded `0.0` by `__init__`), cap it at 300, store it and sleep
it. -/
def handleRateLimitError (retryAfter : Option ℚ) (s : RateLimiterState) :
    RateLimiterState :=
  match retryAfter with
  | some r =>
    if r ≠ 0 then { s with now := s.now + r }
    else
      let delay := min (s.retryDelay * 2) 300
      { s with retryDelay := delay, now := s.now + delay }
  | none =>
    let delay := min (s.retryDelay * 2) 300
    { s with retryDelay := delay, now := s.now + delay }

/-- One client interaction with the limiter: either an `acquire(endpoint)` or a
`handle_rate_limit_error(endpoint, retry_after)`, each preceded by an idle gap
during which only the clock advances. -/
inductive LimiterOp where
  | acquire : ℚ → LimiterOp
  | rateLimitError : ℚ → Option ℚ → LimiterOp
deriving DecidableEq

/-- Well-formed interaction: idle gaps and retry-after hints are nonnegative
(time never flows backwards). -/
def LimiterOp.wf : LimiterOp → Prop
  | .acquire gap => 0 ≤ gap
  | .rateLimitError gap retryAfter => 0 ≤ gap ∧ ∀ r ∈ retryAfter, 0 ≤ r

instance : DecidablePred LimiterOp.wf := by
  intro op
  cases op with
  | acquire gap => exact inferInstanceAs (Decidable (0 ≤ gap))
  | rateLimitError gap retryAfter =>
    exact inferInstanceAs (Decidable (0 ≤ gap ∧ ∀ r ∈ retryAfter, 0 ≤ r))

/-- Apply one interaction to the per-endpoint state. -/
def limiterStep (maxRequests : ℕ) (window : ℚ) (s : RateLimiterState) :
    LimiterOp → RateLimiterState
  | .acquire gap => waitForEndpointLimit maxRequests window { s with now := s.now + gap }
  | .rateLimitError gap retryAfter =>
    handleRateLimitError retryAfter { s with now := s.now + gap }

/-- Run a sequence of interactions. -/
def limiterRun (maxRequests : ℕ) (window : ℚ) (ops : List LimiterOp)
    (s : RateLimiterState) : RateLimiterState :=
  ops.foldl (limiterStep maxRequests window) s

/-- Number of admitted timestamps falling inside the rolling half-open window
`(t - window, t]`. -/
def grantedInWindow (window t : ℚ) (granted : List ℚ) : ℕ :=
  (granted.filter (fun x => decide (t - window < x) && decide (x ≤ t))).length

/-- Invariant tying the per-endpoint limiter state to its ghost log: the
pending backoff is zero (the only value `handle_rate_limit_error` ever
stores), the history is time-ordered, bounded by `now`, and holds at most
`maxRequests` entries, the ghost log splits into expired entries (older than
the window) followed by exactly the live history, and every rolling window
holds at most `maxRequests` admissions. -/
structure LimiterInv (maxRequests : ℕ) (window : ℚ) (s : RateLimiterState) :
    Prop where
  delay_zero : s.retryDelay = 0
  hist_sorted : s.history.Pairwise (· ≤ ·)
  hist_le_now : ∀ x ∈ s.history, x ≤ s.now
  hist_len : s.history.length ≤ maxRequests
  granted_split : ∃ pre, pre ++ s.history = s.granted ∧
    ∀ x ∈ pre, x ≤ s.now - window
  window_count : ∀ t : ℚ, grantedInWindow window t s.granted ≤ maxRequests

/- ## Theorems -/

/- ### C5 / C10: retry decorators -/

/-- C5: `async_retry` with `max_retries = 3`, `backoff_base = 2`: an operation
failing on every attempt with a retryable (matched) error is invoked exactly 3
times, the waits between attempts are `2^0 = 1` and `2^1 = 2` seconds (none
after the final attempt), and the error of the final attempt is raised; an
operation whose first failure is non-retryable (not matched) propagates at once
after exactly 1 invocation with no wait. -/
theorem c5_retry_wrap (matched : ε → Bool) (opA opB : ℕ → Except ε α)
    (errs : ℕ → ε) (e : ε)
    (hA : ∀ k, opA k = .error (errs k)) (hAm : ∀ k, matched (errs k) = true)
    (hB : opB 0 = .error e) (hBm : matched e = false) :
    asyncRetry matched opA 2 3 =
      { invocations := 3, waits := [1, 2], result := .raised (errs 2) } ∧
    asyncRetry matched opB 2 3 =
      { invocations := 1, waits := [], result := .raised e } := by
  constructor
  · show retryLoop matched opA 2 0 3 none = _
    simp [retryLoop, hA, hAm]
  · show retryLoop matched opB 2 0 3 none = _
    simp [retryLoop, hB, hBm]

/-- Witness for C5 at a concrete always-failing operation and a concrete
non-retryable one. -/
theorem c5_retry_wrap_witness :
    asyncRetry (fun s => s == "boom") (fun _ => (.error "boom" : Except String Unit)) 2 3 =
      { invocations := 3, waits := [1, 2], result := .raised "boom" } ∧
    asyncRetry (fun s => s == "boom") (fun _ => (.error "fatal" : Except String Unit)) 2 3 =
      { invocations := 1, waits := [], result := .raised "fatal" } :=
  c5_retry_wrap (fun s => s == "boom") (fun _ => .error "boom") (fun _ => .error "fatal")
    (fun _ => "boom") "fatal" (fun _ => rfl) (fun _ => rfl) rfl rfl

/-- C10: with `max_retries = 0` the attempt loop `for retry_count in
range(max_retries)` never runs, so both `async_retry` and `sync_retry` never
invoke the wrapped operation and fall through to
`raise RuntimeError("Max retries exceeded")` (`last_exception` is `None`). -/
theorem c10_zero_retries_never_invokes (matched : ε → Bool)
    (op : ℕ → Except ε α) (backoffBase : ℕ) :
    asyncRetry matched op backoffBase 0 =
      { invocations := 0, waits := [], result := .maxRetriesExceeded } ∧
    syncRetry matched op backoffBase 0 =
      { invocations := 0, waits := [], result := .maxRetriesExceeded } :=
  ⟨rfl, rfl⟩

/- ### C2: orchestrator top-level retry -/

theorem extractOrdersAux_run (outcome : ℕ → Option String) :
    ∀ n (errs : ℕ → String) k fuel,
      (∀ i < n, outcome (k + i) = some (errs i) ∧ shouldRetry (errs i) = true) →
      n < fuel →
      (outcome (k + n) = none →
        extractOrdersAux outcome k fuel =
          { invocations := n + 1, sleeps := n, outcome := .success }) ∧
      (∀ m, outcome (k + n) = some m → shouldRetry m = false →
        extractOrdersAux outcome k fuel =
          { invocations := n + 1, sleeps := n, outcome := .failed m }) := by
  intro n
  induction n with
  | zero =>
    intro errs k fuel _ hfuel
    obtain ⟨f, rfl⟩ : ∃ f, fuel = f + 1 := ⟨fuel - 1, by omega⟩
    constructor
    · intro hnone
      rw [extractOrdersAux]
      rw [show k + 0 = k from rfl] at hnone
      rw [hnone]
    · intro m hsome hm
      rw [extractOrdersAux]
      rw [show k + 0 = k from rfl] at hsome
      rw [hsome]
      simp [hm]
  | succ n ih =>
    intro errs k fuel htr hfuel
    obtain ⟨f, rfl⟩ : ∃ f, fuel = f + 1 := ⟨fuel - 1, by omega⟩
    have h0 := htr 0 (Nat.succ_pos n)
    rw [show k + 0 = k from rfl] at h0
    have htr' : ∀ i < n, outcome (k + 1 + i) = some (errs (i + 1)) ∧
        shouldRetry (errs (i + 1)) = true := by
      intro i hi
      have := htr (i + 1) (by omega)
      rwa [show k + (i + 1) = k + 1 + i from by omega] at this
    have ih' := ih (fun i => errs (i + 1)) (k + 1) f htr' (by omega)
    constructor
    · intro hnone
      rw [extractOrdersAux, h0.1]
      simp only [h0.2, if_true]
      rw [ih'.1 (by rwa [show k + 1 + n = k + (n + 1) from by omega])]
    · intro m hsome hm
      rw [extractOrdersAux, h0.1]
      simp only [h0.2, if_true]
      rw [ih'.2 m (by rwa [show k + 1 + n = k + (n + 1) from by omega]) hm]

/-- C2 counterexample: when the first two invocations both fail with a
transient `"ConnectionError"` and the third succeeds, `extract_orders` is
invoked a third time and returns success (sleeping 30 s twice) — the error is
not propagated after the second failure, contradicting "re-invokes the run
exactly once more, propagating the error if the second run also fails". -/
theorem c2_exactly_once_counterexample :
    extractOrders (fun k => if k < 2 then some "ConnectionError" else none) 10 =
      { invocations := 3, sleeps := 2, outcome := .success } := by
  decide

/-- C2 amended: on an error whose string matches a transient signature the
orchestrator sleeps 30 s and re-invokes the run recursively, without any bound
on the number of re-invocations: after any number `n` of consecutive transient
failures it runs again (returning success if that run succeeds), and it
propagates an error immediately, with no sleep and no re-invocation, exactly
when the signature does not match — in particular a non-transient first error
gives one invocation and zero sleeps. -/
theorem c2_orchestrator_retries_unbounded (outcome : ℕ → Option String)
    (errs : ℕ → String) (n fuel : ℕ)
    (htr : ∀ i < n, outcome i = some (errs i) ∧ shouldRetry (errs i) = true)
    (hfuel : n < fuel) :
    (outcome n = none →
      extractOrders outcome fuel =
        { invocations := n + 1, sleeps := n, outcome := .success }) ∧
    (∀ m, outcome n = some m → shouldRetry m = false →
      extractOrders outcome fuel =
        { invocations := n + 1, sleeps := n, outcome := .failed m }) := by
  have := extractOrdersAux_run outcome n errs 0 fuel
    (by intro i hi; rw [show 0 + i = i from by omega]; exact htr i hi) hfuel
  rw [show 0 + n = n from by omega] at this
  exact this

/-- Witness for the amended C2: two transient `"TimeoutError"` failures then a
success give three invocations and two sleeps; a first non-transient
`"ValueError"` failure propagates after one invocation and no sleep. -/
theorem c2_orchestrator_retries_unbounded_witness :
    extractOrders (fun k => if k < 2 then some "TimeoutError happened" else none) 9 =
      { invocations := 3, sleeps := 2, outcome := .success } ∧
    extractOrders (fun _ => some "ValueError: bad schema") 9 =
      { invocations := 1, sleeps := 0, outcome := .failed "ValueError: bad schema" } := by
  constructor
  · exact (c2_orchestrator_retries_unbounded
      (fun k => if k < 2 then some "TimeoutError happened" else none)
      (fun _ => "TimeoutError happened") 2 9
      (by intro i hi; interval_cases i <;> exact ⟨rfl, rfl⟩) (by omega)).1 rfl
  · exact (c2_orchestrator_retries_unbounded
      (fun _ => some "ValueError: bad schema")
      (fun _ => "") 0 9
      (by intro i hi; omega) (by omega)).2 "ValueError: bad schema" rfl rfl

/- ### C9: orchestrator batching -/

theorem processOrdersBatchUpserts_spec {α : Type} (b : ℕ) (hb : 1 ≤ b) :
    ∀ n (orders : List α), orders.length ≤ n →
      (processOrdersBatchUpserts false b orders).flatten = orders ∧
      (processOrdersBatchUpserts false b orders).length =
        (orders.length + b - 1) / b ∧
      (∀ c ∈ (processOrdersBatchUpserts false b orders).dropLast,
        c.length = b) ∧
      (∀ c ∈ processOrdersBatchUpserts false b orders,
        c.length ≤ b ∧ c ≠ []) := by
  intro n
  induction n with
  | zero =>
    intro orders hlen
    have horders : orders = [] := List.length_eq_zero.mp (Nat.le_zero.mp hlen)
    subst horders
    have hdiv : (b - 1) / b = 0 := Nat.div_eq_of_lt (by omega)
    refine ⟨by simp [processOrdersBatchUpserts], ?_,
      by simp [processOrdersBatchUpserts], by simp [processOrdersBatchUpserts]⟩
    simp [processOrdersBatchUpserts, hdiv]
  | succ n ih =>
    intro orders hlen
    match orders with
    | [] =>
      have hdiv : (b - 1) / b = 0 := Nat.div_eq_of_lt (by omega)
      refine ⟨by simp [processOrdersBatchUpserts], ?_,
        by simp [processOrdersBatchUpserts], by simp [processOrdersBatchUpserts]⟩
      simp [processOrdersBatchUpserts, hdiv]
    | o :: os =>
      have hb0 : b ≠ 0 := by omega
      have heq : processOrdersBatchUpserts false b (o :: os) =
          (o :: os).take b ::
            processOrdersBatchUpserts false b ((o :: os).drop b) := by
        rw [processOrdersBatchUpserts]
        simp [hb0]
      have hdl : ((o :: os).drop b).length ≤ n := by
        simp only [List.length_drop, List.length_cons]
        simp only [List.length_cons] at hlen
        omega
      obtain ⟨ihj, ihl, ihd, ihm⟩ := ih _ hdl
      refine ⟨?_, ?_, ?_, ?_⟩
      · rw [heq]
        simp only [List.flatten_cons]
        rw [ihj, List.take_append_drop]
      · rw [heq, List.length_cons, ihl]
        simp only [List.length_drop, List.length_cons]
        have hpos : 0 < b := hb
        have hr : os.length + 1 + b - 1 = os.length + b := by omega
        rw [hr, Nat.add_div_right _ hpos]
        rcases le_or_lt b (os.length + 1) with hcase | hcase
        · have h1 : os.length + 1 - b + b - 1 = os.length := by omega
          rw [h1]
        · have h1 : os.length + 1 - b + b - 1 = b - 1 := by omega
          rw [h1, Nat.div_eq_of_lt (by omega), Nat.div_eq_of_lt (by omega)]
      · rw [heq]
        cases hrec : processOrdersBatchUpserts false b ((o :: os).drop b) with
        | nil => simp
        | cons c cs =>
          rw [List.dropLast_cons₂]
          intro x hx
          rcases List.mem_cons.mp hx with hx1 | hx2
          · subst hx1
            have hba : b ≤ (o :: os).length := by
              by_contra hcon
              push_neg at hcon
              have : (o :: os).drop b = [] := List.drop_eq_nil_of_le (by omega)
              rw [this] at hrec
              have : processOrdersBatchUpserts false b ([] : List α) = [] := by
                simp [processOrdersBatchUpserts]
              rw [this] at hrec
              exact List.cons_ne_nil c cs hrec.symm
            rw [List.length_take]
            omega
          · exact ihd x (by rw [hrec]; exact hx2)
      · rw [heq]
        intro c hc
        rcases List.mem_cons.mp hc with hc1 | hc2
        · subst hc1
          constructor
          · rw [List.length_take]; omega
          · obtain ⟨b', rfl⟩ : ∃ b', b = b' + 1 := ⟨b - 1, by omega⟩
            simp [List.take]
        · exact ihm c hc2

/-- C9: for a non-`STATUS_UPDATE` run with positive `batch_size`, the
`upsert_orders` calls of `_process_orders_batch` partition the record list:
their arguments concatenated in order equal the full list, there are exactly
`⌈n / batch_size⌉` of them, every batch except possibly the last has exactly
`batch_size` records, and every batch is non-empty with at most `batch_size`
records. -/
theorem c9_batch_partition {α : Type} (batchSize : ℕ) (orders : List α)
    (hb : 1 ≤ batchSize) :
    (processOrdersBatchUpserts false batchSize orders).flatten = orders ∧
    (processOrdersBatchUpserts false batchSize orders).length =
      (orders.length + batchSize - 1) / batchSize ∧
    (∀ c ∈ (processOrdersBatchUpserts false batchSize orders).dropLast,
      c.length = batchSize) ∧
    (∀ c ∈ processOrdersBatchUpserts false batchSize orders,
      c.length ≤ batchSize ∧ c ≠ []) :=
  processOrdersBatchUpserts_spec batchSize hb orders.length orders le_rfl

/-- Witness for C9: 3 records with `batch_size = 2` yield exactly the two
batches `[r1, r2]` and `[r3]`. -/
theorem c9_batch_partition_witness :
    processOrdersBatchUpserts false 2 [1, 2, 3] = [[1, 2], [3]] ∧
    ((processOrdersBatchUpserts false 2 ([1, 2, 3] : List ℕ)).flatten = [1, 2, 3] ∧
      (processOrdersBatchUpserts false 2 ([1, 2, 3] : List ℕ)).length =
        (([1, 2, 3] : List ℕ).length + 2 - 1) / 2 ∧
      (∀ c ∈ (processOrdersBatchUpserts false 2 ([1, 2, 3] : List ℕ)).dropLast,
        c.length = 2) ∧
      (∀ c ∈ processOrdersBatchUpserts false 2 ([1, 2, 3] : List ℕ),
        c.length ≤ 2 ∧ c ≠ [])) := by
  constructor
  · simp [processOrdersBatchUpserts]
  · exact c9_batch_partition 2 [1, 2, 3] (by omega)

/- ### C6: missing persistence collaborator -/

/-- C6 counterexample: `ExtractionStrategy.__init__` performs no check, so
constructing `IncrementalExtraction` without a persistence collaborator
succeeds, and the resulting strategy fails at `extract()` time with
`ValueError("DatabaseManager required for incremental extraction")` — refuting
"a successfully constructed strategy never fails at extract() time due to a
missing persistence collaborator". -/
theorem c6_fail_fast_counterexample :
    incrementalExtract
        (mkExtractionStrategy { getOrderStatus := fun _ => none,
                                getOrdersPaginated := [] } none) =
      .error "DatabaseManager required for incremental extraction" := rfl

/-- C6 amended: construction never raises (the constructor stores the
collaborators unchecked); the missing persistence collaborator is detected only
when `extract()` runs — `IncrementalExtraction.extract` raises `ValueError`,
`StatusUpdateExtraction.extract` and `WeeklyCatchUpExtraction.extract` fail on
the `None` dereference — while a strategy constructed with the collaborator
never fails at `extract()` for this reason. -/
theorem c6_missing_db_fails_at_extract (api : ApiClient) (db : DbManager) :
    incrementalExtract (mkExtractionStrategy api none) =
      .error "DatabaseManager required for incremental extraction" ∧
    statusUpdateExtract (mkExtractionStrategy api none) =
      .error "AttributeError: NoneType object has no attribute orders" ∧
    weeklyCatchUpExtract (mkExtractionStrategy api none) =
      .error "AttributeError: NoneType object has no attribute orders" ∧
    incrementalExtract (mkExtractionStrategy api (some db)) =
      .ok api.getOrdersPaginated ∧
    statusUpdateExtract (mkExtractionStrategy api (some db)) =
      .ok (statusUpdateCollect db.pendingOrders api.getOrderStatus) ∧
    weeklyCatchUpExtract (mkExtractionStrategy api (some db)) =
      .ok ((if (weeklyPartition db.staleOrders api.getOrdersPaginated).1 = []
            then []
            else [DbEvent.deleteOrders
              (weeklyPartition db.staleOrders api.getOrdersPaginated).1]) ++
        [DbEvent.returned
          (weeklyPartition db.staleOrders api.getOrdersPaginated).2]) :=
  ⟨rfl, rfl, rfl, rfl, rfl, rfl⟩

/- ### C7: StatusUpdateExtraction diff -/

/-- C7: a pending order's fetched counterpart is in the output of
`StatusUpdateExtraction.extract` if and only if its
`(orderStatus, lastUpdateDate)` pair differs from the stored one in at least
one component (assuming order ids are unique and `get_order_status(id)`
returns a record with that id). -/
theorem c7_status_update_diff (pending : List OrderRec)
    (getStatus : String → Option OrderRec) (A r : OrderRec)
    (hids : (pending.map OrderRec.amazonOrderId).Nodup)
    (hapi : ∀ id rec, getStatus id = some rec → rec.amazonOrderId = id)
    (hA : A ∈ pending) (hr : getStatus A.amazonOrderId = some r) :
    (r ∈ statusUpdateCollect pending getStatus ↔ hasStatusChanged A r = true) ∧
    (∀ api : ApiClient, api.getOrderStatus = getStatus →
      ∀ stale : List OrderRec,
        statusUpdateExtract (mkExtractionStrategy api
            (some { pendingOrders := pending, staleOrders := stale })) =
          .ok (statusUpdateCollect pending getStatus)) := by
  constructor
  · constructor
    · intro hmem
      obtain ⟨B, hB, hfB⟩ := List.mem_filterMap.mp hmem
      cases hgB : getStatus B.amazonOrderId with
      | none => rw [hgB] at hfB; cases hfB
      | some cur =>
        rw [hgB] at hfB
        simp only at hfB
        by_cases hch : hasStatusChanged B cur = true
        · rw [if_pos hch] at hfB
          have hcurr : cur = r := Option.some.inj hfB
          subst hcurr
          have hBid : cur.amazonOrderId = B.amazonOrderId := hapi _ _ hgB
          have hAid : cur.amazonOrderId = A.amazonOrderId := hapi _ _ hr
          have hBA : B = A :=
            List.inj_on_of_nodup_map hids hB hA (by rw [← hBid, hAid])
          rwa [hBA] at hch
        · rw [if_neg hch] at hfB
          cases hfB
    · intro hch
      refine List.mem_filterMap.mpr ⟨A, hA, ?_⟩
      rw [hr]
      simp [hch]
  · intro api hgs stale
    show Except.ok (statusUpdateCollect pending api.getOrderStatus) = _
    rw [hgs]

/-- Witness for C7: a stored `("A", "Pending", "T0")` whose fetched tuple is
`("A", "Shipped", "T0")` is included in the output; a stored
`("B", "Pending", "T0")` whose fetched tuple is identical yields an empty
output. -/
theorem c7_status_update_diff_witness :
    (⟨"A", "Shipped", "T0"⟩ : OrderRec) ∈
      statusUpdateCollect [⟨"A", "Pending", "T0"⟩]
        (fun id => if id = "A" then some ⟨"A", "Shipped", "T0"⟩ else none) ∧
    statusUpdateCollect [⟨"B", "Pending", "T0"⟩]
      (fun id => if id = "B" then some ⟨"B", "Pending", "T0"⟩ else none) = [] := by
  constructor
  · refine (c7_status_update_diff [⟨"A", "Pending", "T0"⟩]
      (fun id => if id = "A" then some ⟨"A", "Shipped", "T0"⟩ else none)
      ⟨"A", "Pending", "T0"⟩ ⟨"A", "Shipped", "T0"⟩
      (by decide) ?_ (by simp) (by simp)).1.mpr (by decide)
    intro id rec h
    dsimp only at h
    by_cases hid : id = "A"
    · subst hid
      rw [if_pos rfl] at h
      cases h
      rfl
    · rw [if_neg hid] at h
      cases h
  · decide

/- ### C8: WeeklyCatchUpExtraction partition -/

theorem dictInsert_fresh (d : List (String × OrderRec)) (key : String)
    (v : OrderRec) (h : key ∉ d.map Prod.fst) :
    dictInsert d key v = d ++ [(key, v)] := by
  have hany : d.any (fun p => p.1 == key) = false := by
    rw [List.any_eq_false]
    intro p hp
    simp only [beq_iff_eq]
    intro hpk
    exact h (hpk ▸ List.mem_map_of_mem Prod.fst hp)
  simp [dictInsert, hany]

theorem dictOfOrders_foldl (l : List OrderRec) :
    ∀ d : List (String × OrderRec),
      (∀ o ∈ l, o.amazonOrderId ∉ d.map Prod.fst) →
      (l.map OrderRec.amazonOrderId).Nodup →
      l.foldl (fun d o => dictInsert d o.amazonOrderId o) d =
        d ++ l.map (fun o => (o.amazonOrderId, o)) := by
  induction l with
  | nil => intro d _ _; simp
  | cons o os ih =>
    intro d hfresh hnodup
    rw [List.foldl_cons,
      dictInsert_fresh d o.amazonOrderId o (hfresh o (List.mem_cons_self o os))]
    rw [List.map_cons, List.nodup_cons] at hnodup
    rw [ih (d ++ [(o.amazonOrderId, o)]) ?_ hnodup.2]
    · simp
    · intro o' ho'
      rw [List.map_append, List.mem_append]
      rintro (hd | hsingle)
      · exact hfresh o' (List.mem_cons_of_mem o ho') hd
      · simp only [List.map_cons, List.map_nil, List.mem_singleton] at hsingle
        exact hnodup.1 (hsingle ▸ List.mem_map_of_mem OrderRec.amazonOrderId ho')

theorem dictOfOrders_eq_map (l : List OrderRec)
    (h : (l.map OrderRec.amazonOrderId).Nodup) :
    dictOfOrders l = l.map (fun o => (o.amazonOrderId, o)) := by
  rw [dictOfOrders, dictOfOrders_foldl l [] (by simp) h, List.nil_append]

theorem dictFind_mem (stale : List OrderRec)
    (hs : (stale.map OrderRec.amazonOrderId).Nodup) (s : OrderRec)
    (hmem : s ∈ stale) :
    dictFind (dictOfOrders stale) s.amazonOrderId = some s := by
  rw [dictOfOrders_eq_map stale hs]
  induction stale with
  | nil => cases hmem
  | cons h t ih =>
    rw [List.map_cons, List.nodup_cons] at hs
    rcases List.mem_cons.mp hmem with hsh | hst
    · subst hsh
      simp [dictFind, List.find?_cons]
    · have hne : h.amazonOrderId ≠ s.amazonOrderId := by
        intro heq
        exact hs.1 (heq ▸ List.mem_map_of_mem OrderRec.amazonOrderId hst)
      have := ih hs.2 hst
      simp only [dictFind, List.map_cons, List.find?_cons] at this ⊢
      rw [show ((h.amazonOrderId, h).1 == s.amazonOrderId) = false from
        beq_eq_false_iff_ne.mpr hne]
      exact this

theorem dictFind_none (stale : List OrderRec)
    (hs : (stale.map OrderRec.amazonOrderId).Nodup) (key : String)
    (hnone : ∀ s ∈ stale, s.amazonOrderId ≠ key) :
    dictFind (dictOfOrders stale) key = none := by
  rw [dictOfOrders_eq_map stale hs]
  rw [dictFind, Option.map_eq_none', List.find?_eq_none]
  intro p hp
  obtain ⟨s, hsmem, rfl⟩ := List.mem_map.mp hp
  simp only [beq_iff_eq]
  exact hnone s hsmem

theorem weeklyPartition_foldl (staleD : List (String × OrderRec)) :
    ∀ (l : List (String × OrderRec)) (acc1 : List String)
      (acc2 : List OrderRec),
      l.foldl
        (fun acc kv =>
          match dictFind staleD kv.1 with
          | some dbOrder =>
            if needsRefresh dbOrder kv.2 then (acc.1 ++ [kv.1], acc.2 ++ [kv.2])
            else acc
          | none => (acc.1, acc.2 ++ [kv.2])) (acc1, acc2) =
      (acc1 ++ l.filterMap (fun kv =>
          match dictFind staleD kv.1 with
          | some dbOrder =>
            if needsRefresh dbOrder kv.2 then some kv.1 else none
          | none => none),
        acc2 ++ l.filterMap (fun kv =>
          match dictFind staleD kv.1 with
          | some dbOrder =>
            if needsRefresh dbOrder kv.2 then some kv.2 else none
          | none => some kv.2)) := by
  intro l
  induction l with
  | nil => intro acc1 acc2; simp
  | cons kv t ih =>
    intro acc1 acc2
    rw [List.foldl_cons]
    cases hfind : dictFind staleD kv.1 with
    | some dbOrder =>
      by_cases hneed : needsRefresh dbOrder kv.2 = true
      · simp only [hfind, hneed, if_true]
        rw [ih]
        simp [List.filterMap_cons, hfind, hneed]
      · simp only [hfind, hneed, if_false]
        rw [ih]
        simp [List.filterMap_cons, hfind, hneed]
    | none =>
      simp only [hfind]
      rw [ih]
      simp [List.filterMap_cons, hfind]

theorem weeklyPartition_eq (stale api : List OrderRec)
    (ha : (api.map OrderRec.amazonOrderId).Nodup) :
    weeklyPartition stale api =
      (api.filterMap (fun a =>
          match dictFind (dictOfOrders stale) a.amazonOrderId with
          | some dbOrder =>
            if needsRefresh dbOrder a then some a.amazonOrderId else none
          | none => none),
        api.filterMap (fun a =>
          match dictFind (dictOfOrders stale) a.amazonOrderId with
          | some dbOrder => if needsRefresh dbOrder a then some a else none
          | none => some a)) := by
  rw [weeklyPartition]
  simp only [dictOfOrders_eq_map api ha]
  rw [weeklyPartition_foldl (dictOfOrders stale) (api.map (fun o => (o.amazonOrderId, o))) [] []]
  rw [List.filterMap_map, List.filterMap_map]
  simp only [List.nil_append]
  rfl

/-- C8: under unique order ids, `WeeklyCatchUpExtraction` partitions the stale
local orders and the fetched remote orders so that (i) an id present on both
sides whose `(orderStatus, lastUpdateDate)` differs goes to both the delete
list and the returned insert list, (ii) an id present only remotely goes only
to the insert list, (iii) an id present on both sides with identical fields
goes to neither, and (iv) `extract` issues `delete_orders` (when the delete
list is non-empty) before returning the insert list. -/
theorem c8_weekly_catch_up (stale api : List OrderRec)
    (hs : (stale.map OrderRec.amazonOrderId).Nodup)
    (ha : (api.map OrderRec.amazonOrderId).Nodup) :
    (∀ a ∈ api, ∀ s ∈ stale, s.amazonOrderId = a.amazonOrderId →
      needsRefresh s a = true →
        a.amazonOrderId ∈ (weeklyPartition stale api).1 ∧
        a ∈ (weeklyPartition stale api).2) ∧
    (∀ a ∈ api, (∀ s ∈ stale, s.amazonOrderId ≠ a.amazonOrderId) →
      a ∈ (weeklyPartition stale api).2 ∧
      a.amazonOrderId ∉ (weeklyPartition stale api).1) ∧
    (∀ a ∈ api, ∀ s ∈ stale, s.amazonOrderId = a.amazonOrderId →
      needsRefresh s a = false →
        a.amazonOrderId ∉ (weeklyPartition stale api).1 ∧
        a ∉ (weeklyPartition stale api).2) ∧
    (∀ apiC : ApiClient, apiC.getOrdersPaginated = api →
      ∀ pending : List OrderRec,
        weeklyCatchUpExtract (mkExtractionStrategy apiC
            (some { pendingOrders := pending, staleOrders := stale })) =
          .ok ((if (weeklyPartition stale api).1 = [] then []
              else [DbEvent.deleteOrders (weeklyPartition stale api).1]) ++
            [DbEvent.returned (weeklyPartition stale api).2])) := by
  rw [weeklyPartition_eq stale api ha]
  refine ⟨?_, ?_, ?_, ?_⟩
  · intro a hamem s hsmem hsid hneed
    have hfind : dictFind (dictOfOrders stale) a.amazonOrderId = some s := by
      rw [← hsid]; exact dictFind_mem stale hs s hsmem
    constructor
    · exact List.mem_filterMap.mpr ⟨a, hamem, by rw [hfind]; simp [hneed]⟩
    · exact List.mem_filterMap.mpr ⟨a, hamem, by rw [hfind]; simp [hneed]⟩
  · intro a hamem hnone
    have hfind : dictFind (dictOfOrders stale) a.amazonOrderId = none :=
      dictFind_none stale hs a.amazonOrderId hnone
    constructor
    · exact List.mem_filterMap.mpr ⟨a, hamem, by rw [hfind]⟩
    · intro hmem
      obtain ⟨b, hb, hfb⟩ := List.mem_filterMap.mp hmem
      cases hfindb : dictFind (dictOfOrders stale) b.amazonOrderId with
      | none => rw [hfindb] at hfb; cases hfb
      | some dbOrder =>
        rw [hfindb] at hfb
        simp only at hfb
        by_cases hneedb : needsRefresh dbOrder b = true
        · rw [if_pos hneedb] at hfb
          have hbid : b.amazonOrderId = a.amazonOrderId := Option.some.inj hfb
          rw [hbid] at hfindb
          rw [hfind] at hfindb
          cases hfindb
        · rw [if_neg hneedb] at hfb
          cases hfb
  · intro a hamem s hsmem hsid hneed
    have hfind : dictFind (dictOfOrders stale) a.amazonOrderId = some s := by
      rw [← hsid]; exact dictFind_mem stale hs s hsmem
    constructor
    · intro hmem
      obtain ⟨b, hb, hfb⟩ := List.mem_filterMap.mp hmem
      cases hfindb : dictFind (dictOfOrders stale) b.amazonOrderId with
      | none => rw [hfindb] at hfb; cases hfb
      | some dbOrder =>
        rw [hfindb] at hfb
        simp only at hfb
        by_cases hneedb : needsRefresh dbOrder b = true
        · rw [if_pos hneedb] at hfb
          have hbid : b.amazonOrderId = a.amazonOrderId := Option.some.inj hfb
          have hba : b = a := List.inj_on_of_nodup_map ha hb hamem hbid
          subst hba
          rw [hfind] at hfindb
          have : dbOrder = s := (Option.some.inj hfindb).symm
          subst this
          rw [hneedb] at hneed
          cases hneed
        · rw [if_neg hneedb] at hfb
          cases hfb
    · intro hmem
      obtain ⟨b, hb, hfb⟩ := List.mem_filterMap.mp hmem
      cases hfindb : dictFind (dictOfOrders stale) b.amazonOrderId with
      | none =>
        rw [hfindb] at hfb
        have hba : b = a := Option.some.inj hfb
        subst hba
        rw [hfind] at hfindb
        cases hfindb
      | some dbOrder =>
        rw [hfindb] at hfb
        simp only at hfb
        by_cases hneedb : needsRefresh dbOrder b = true
        · rw [if_pos hneedb] at hfb
          have hba : b = a := Option.some.inj hfb
          subst hba
          rw [hfind] at hfindb
          have : dbOrder = s := (Option.some.inj hfindb).symm
          subst this
          rw [hneedb] at hneed
          cases hneed
        · rw [if_neg hneedb] at hfb
          cases hfb
  · intro apiC hapi pending
    rw [weeklyCatchUpExtract]
    simp only [mkExtractionStrategy]
    rw [hapi, weeklyPartition_eq stale api ha]

/-- Witness for C8 at the spec's example: stale `("B", "Pending", "T0")` vs
fetched `("B", "Shipped", "T1")` puts `"B"` in the delete list and the fetched
record in the insert list; fetched `("C", "Pending", "T0")` absent from the
stale side is in the insert list. -/
theorem c8_weekly_catch_up_witness :
    "B" ∈ (weeklyPartition [⟨"B", "Pending", "T0"⟩]
      [⟨"B", "Shipped", "T1"⟩, ⟨"C", "Pending", "T0"⟩]).1 ∧
    (⟨"B", "Shipped", "T1"⟩ : OrderRec) ∈ (weeklyPartition [⟨"B", "Pending", "T0"⟩]
      [⟨"B", "Shipped", "T1"⟩, ⟨"C", "Pending", "T0"⟩]).2 ∧
    (⟨"C", "Pending", "T0"⟩ : OrderRec) ∈ (weeklyPartition [⟨"B", "Pending", "T0"⟩]
      [⟨"B", "Shipped", "T1"⟩, ⟨"C", "Pending", "T0"⟩]).2 := by
  have h := c8_weekly_catch_up [⟨"B", "Pending", "T0"⟩]
    [⟨"B", "Shipped", "T1"⟩, ⟨"C", "Pending", "T0"⟩] (by decide) (by decide)
  have hboth := h.1 ⟨"B", "Shipped", "T1"⟩ (by simp) ⟨"B", "Pending", "T0"⟩
    (by simp) rfl (by decide)
  have hnew := (h.2.1 ⟨"C", "Pending", "T0"⟩ (by simp) (by decide)).1
  exact ⟨hboth.1, hboth.2, hnew⟩

/- ### C3 / C4: rate limiter backoff -/

/-- C3: the stored backoff never leaves `0`.  `__init__` seeds
`retry_delays[endpoint] = 0.0` (so the `1.0` fallback of
`self.retry_delays.get(endpoint, 1.0)` is dead), hence each
`handle_rate_limit_error(endpoint, retry_after=None)` computes
`min(0.0 * 2, 300) = 0.0`, stores `0.0` and sleeps `0` — after any number of
consecutive calls the state is unchanged, contradicting
`min(base * 2^n, 300)` with seed 1 s and a positive first delay. -/
theorem c3_backoff_stuck_at_zero (maxRequests : ℕ) (window t0 : ℚ) (n : ℕ) :
    limiterRun maxRequests window
      (List.replicate n (LimiterOp.rateLimitError 0 none))
      (initLimiterState t0) = initLimiterState t0 := by
  induction n with
  | zero => rfl
  | succ n ih =>
    rw [List.replicate_succ, limiterRun, List.foldl_cons]
    have hstep : limiterStep maxRequests window (initLimiterState t0)
        (LimiterOp.rateLimitError 0 none) = initLimiterState t0 := by
      show handleRateLimitError none _ = _
      rw [handleRateLimitError]
      have hmin : min ((0 : ℚ) * 2) 300 = 0 := by norm_num
      simp [initLimiterState, hmin]
    rw [hstep]
    exact ih

/-- C4 counterexample: even granting a state whose stored backoff has been
elevated to 2 s, the very next `acquire` sleeps it and resets it to `0` — no
successful call is involved — and the following `acquire` gets no added wait
(the clock stays at 2): the elevated value does not persist and is not added
to every subsequent `acquire`'s wait. -/
theorem c4_persistence_counterexample :
    (waitForEndpointLimit 6 60
      { history := [], retryDelay := 2, now := 0, granted := [] }).retryDelay = 0 ∧
    (waitForEndpointLimit 6 60
      { history := [], retryDelay := 2, now := 0, granted := [] }).now = 2 ∧
    (waitForEndpointLimit 6 60 (waitForEndpointLimit 6 60
      { history := [], retryDelay := 2, now := 0, granted := [] })).now = 2 := by
  have h1 : waitForEndpointLimit 6 60
      { history := [], retryDelay := 2, now := 0, granted := [] } =
      { history := [2], retryDelay := 0, now := 2, granted := [2] } := by
    rw [waitForEndpointLimit]
    norm_num [cleanupOldRequests]
  have h2 : waitForEndpointLimit 6 60
      { history := [2], retryDelay := 0, now := 2, granted := [2] } =
      { history := [2, 2], retryDelay := 0, now := 2, granted := [2, 2] } := by
    rw [waitForEndpointLimit]
    norm_num [cleanupOldRequests]
  rw [h1, h2]
  exact ⟨rfl, rfl, rfl⟩

/-- C4 amended: a pending positive retry delay is consumed by the next
`acquire(endpoint)`: that acquire waits at least the stored delay (the clock
advances by at least `retryDelay`) and resets the stored delay to zero; it is
therefore not added to later acquires, and no success-based reset exists in
the code (moreover, by `c3_backoff_stuck_at_zero`,
`handle_rate_limit_error` never actually stores a positive delay). -/
theorem c4_backoff_consumed_by_next_acquire (maxRequests : ℕ) (window : ℚ)
    (s : RateLimiterState) (h : 0 < s.retryDelay) :
    (waitForEndpointLimit maxRequests window s).retryDelay = 0 ∧
    s.now + s.retryDelay ≤ (waitForEndpointLimit maxRequests window s).now := by
  simp only [waitForEndpointLimit, if_pos h]
  split_ifs with h1 h2
  · refine ⟨rfl, ?_⟩
    simp only
    linarith
  · exact ⟨rfl, le_refl _⟩
  · exact ⟨rfl, le_refl _⟩

/-- Witness for the amended C4 at a concrete state with stored backoff 2. -/
theorem c4_backoff_consumed_witness :
    (waitForEndpointLimit 6 60
      { history := [], retryDelay := 2, now := 0, granted := [] }).retryDelay = 0 ∧
    ((0 : ℚ) + 2 ≤ (waitForEndpointLimit 6 60
      { history := [], retryDelay := 2, now := 0, granted := [] }).now) :=
  c4_backoff_consumed_by_next_acquire 6 60
    { history := [], retryDelay := 2, now := 0, granted := [] } (by norm_num)

/- ### C1: sliding-window admission bound -/

theorem cleanup_split (window now : ℚ) (l : List ℚ) :
    ∃ pre, pre ++ cleanupOldRequests window now l = l ∧
      ∀ x ∈ pre, x < now - window := by
  induction l with
  | nil => exact ⟨[], rfl, by intro x hx; cases hx⟩
  | cons t ts ih =>
    by_cases h : t < now - window
    · obtain ⟨pre, hpre, hold⟩ := ih
      refine ⟨t :: pre, ?_, ?_⟩
      · rw [cleanupOldRequests, if_pos h, List.cons_append, hpre]
      · intro x hx
        rcases List.mem_cons.mp hx with rfl | hx
        · exact h
        · exact hold x hx
    · exact ⟨[], by rw [List.nil_append, cleanupOldRequests, if_neg h],
        by intro x hx; cases hx⟩

theorem cleanup_head_not_old (window now : ℚ) (l : List ℚ) (x : ℚ) (xs : List ℚ)
    (h : cleanupOldRequests window now l = x :: xs) : ¬ x < now - window := by
  induction l with
  | nil => cases h
  | cons t ts ih =>
    by_cases ht : t < now - window
    · rw [cleanupOldRequests, if_pos ht] at h
      exact ih h
    · rw [cleanupOldRequests, if_neg ht] at h
      cases h
      exact ht

theorem cleanup_drops_old_head (window now : ℚ) (t : ℚ) (ts : List ℚ)
    (h : t < now - window) :
    cleanupOldRequests window now (t :: ts) = cleanupOldRequests window now ts := by
  rw [cleanupOldRequests, if_pos h]

theorem cleanup_length_le (window now : ℚ) (l : List ℚ) :
    (cleanupOldRequests window now l).length ≤ l.length := by
  obtain ⟨pre, hpre, _⟩ := cleanup_split window now l
  calc (cleanupOldRequests window now l).length
      ≤ pre.length + (cleanupOldRequests window now l).length := by omega
    _ = l.length := by rw [← List.length_append, hpre]

theorem cleanup_sublist (window now : ℚ) (l : List ℚ) :
    (cleanupOldRequests window now l).Sublist l := by
  obtain ⟨pre, hpre, _⟩ := cleanup_split window now l
  have := List.sublist_append_right pre (cleanupOldRequests window now l)
  rwa [hpre] at this

/-- Appending one admission at time `tNew` keeps every rolling window at or
below the bound, provided the log splits into expired entries and a live part
of length < `maxRequests` whose entries do not exceed `tNew`. -/
theorem grantedInWindow_append (maxRequests : ℕ) (window tNew : ℚ)
    (preAll h granted : List ℚ)
    (hsplit : preAll ++ h = granted)
    (hpre : ∀ x ∈ preAll, x ≤ tNew - window)
    (hlen : h.length + 1 ≤ maxRequests)
    (hcount : ∀ t : ℚ, grantedInWindow window t granted ≤ maxRequests) :
    ∀ t : ℚ, grantedInWindow window t (granted ++ [tNew]) ≤ maxRequests := by
  intro t
  rw [grantedInWindow, List.filter_append, List.length_append]
  by_cases ht : t - window < tNew ∧ tNew ≤ t
  · have hsing : ([tNew].filter
        (fun x => decide (t - window < x) && decide (x ≤ t))).length = 1 := by
      simp [List.filter, ht.1, ht.2]
    rw [hsing, ← hsplit, List.filter_append, List.length_append]
    have hprefilter : (preAll.filter
        (fun x => decide (t - window < x) && decide (x ≤ t))).length = 0 := by
      rw [List.length_eq_zero, List.filter_eq_nil_iff]
      intro x hx
      have hxle : x ≤ t - window := le_trans (hpre x hx) (by linarith [ht.2])
      simp only [Bool.and_eq_true, decide_eq_true_eq, not_and]
      intro hcon
      exact absurd hcon (not_lt.mpr hxle)
    rw [hprefilter]
    have hh : (h.filter
        (fun x => decide (t - window < x) && decide (x ≤ t))).length ≤ h.length :=
      List.length_filter_le _ _
    omega
  · have hsing : ([tNew].filter
        (fun x => decide (t - window < x) && decide (x ≤ t))).length = 0 := by
      rcases not_and_or.mp ht with hc | hc
      · simp [List.filter, hc]
      · simp [List.filter, hc]
    rw [hsing]
    have := hcount t
    rw [grantedInWindow] at this
    omega

/-- One `acquire` preserves the limiter invariant. -/
theorem inv_acquire (maxRequests : ℕ) (window : ℚ) (s : RateLimiterState)
    (inv : LimiterInv maxRequests window s) (hm : 1 ≤ maxRequests) :
    LimiterInv maxRequests window (waitForEndpointLimit maxRequests window s) := by
  have hdn : ¬ 0 < s.retryDelay := by rw [inv.delay_zero]; exact lt_irrefl 0
  obtain ⟨pre1, hpre1, hpre1old⟩ := cleanup_split window s.now s.history
  have hsub1 : (cleanupOldRequests window s.now s.history).Sublist s.history :=
    cleanup_sublist window s.now s.history
  have hsort1 : (cleanupOldRequests window s.now s.history).Pairwise (· ≤ ·) :=
    inv.hist_sorted.sublist hsub1
  have hle1 : ∀ x ∈ cleanupOldRequests window s.now s.history, x ≤ s.now :=
    fun x hx => inv.hist_le_now x (hsub1.subset hx)
  have hlen1 : (cleanupOldRequests window s.now s.history).length ≤ maxRequests :=
    le_trans (cleanup_length_le window s.now s.history) inv.hist_len
  obtain ⟨pre0, hpre0, hpre0old⟩ := inv.granted_split
  have hsplit1 : (pre0 ++ pre1) ++ cleanupOldRequests window s.now s.history =
      s.granted := by
    rw [List.append_assoc, hpre1, hpre0]
  by_cases hcap : maxRequests ≤ (cleanupOldRequests window s.now s.history).length
  · -- limit reached: sleep until the oldest entry leaves the window, clean again
    have hne : cleanupOldRequests window s.now s.history ≠ [] := by
      intro hnil
      rw [hnil] at hcap
      simp at hcap
      omega
    obtain ⟨oldest, rest, hor⟩ :
        ∃ o r, cleanupOldRequests window s.now s.history = o :: r := by
      cases hcase : cleanupOldRequests window s.now s.history with
      | nil => exact absurd hcase hne
      | cons o r => exact ⟨o, r, rfl⟩
    have hold_ge : ¬ oldest < s.now - window :=
      cleanup_head_not_old window s.now s.history oldest rest hor
    have hinner : 0 < window - (s.now - oldest) + 1 / 10 := by
      have := not_lt.mp hold_ge
      linarith
    have hst_eq : calculateSleepTime window s.now
        (cleanupOldRequests window s.now s.history) =
        window - (s.now - oldest) + 1 / 10 := by
      rw [hor, calculateSleepTime]
      exact max_eq_right (le_of_lt hinner)
    have hst_pos : 0 < calculateSleepTime window s.now
        (cleanupOldRequests window s.now s.history) := by
      rw [hst_eq]; exact hinner
    set t2 := s.now + calculateSleepTime window s.now
      (cleanupOldRequests window s.now s.history) with ht2
    have hnow_le_t2 : s.now ≤ t2 := by rw [ht2]; linarith
    have ht2w : t2 - window = oldest + 1 / 10 := by rw [ht2, hst_eq]; ring
    have hdrop : cleanupOldRequests window t2
        (cleanupOldRequests window s.now s.history) =
        cleanupOldRequests window t2 rest := by
      rw [hor]
      exact cleanup_drops_old_head window t2 oldest rest (by rw [ht2w]; linarith)
    have hlen2 : (cleanupOldRequests window t2
        (cleanupOldRequests window s.now s.history)).length + 1 ≤ maxRequests := by
      rw [hdrop]
      have hr1 := cleanup_length_le window t2 rest
      have hr2 : rest.length + 1 =
          (cleanupOldRequests window s.now s.history).length := by
        rw [hor]; simp
      omega
    obtain ⟨pre2, hpre2, hpre2old⟩ :=
      cleanup_split window t2 (cleanupOldRequests window s.now s.history)
    have heq : waitForEndpointLimit maxRequests window s =
        { history := cleanupOldRequests window t2
            (cleanupOldRequests window s.now s.history) ++ [t2],
          retryDelay := s.retryDelay, now := t2,
          granted := s.granted ++ [t2] } := by
      rw [waitForEndpointLimit]
      simp only [if_neg hdn, if_pos hcap, if_pos hst_pos]
    have hsub2 : (cleanupOldRequests window t2
        (cleanupOldRequests window s.now s.history)).Sublist
        (cleanupOldRequests window s.now s.history) :=
      cleanup_sublist window t2 (cleanupOldRequests window s.now s.history)
    have hsplit2 : ((pre0 ++ pre1) ++ pre2) ++ cleanupOldRequests window t2
        (cleanupOldRequests window s.now s.history) = s.granted := by
      rw [List.append_assoc ((pre0 ++ pre1)) pre2, hpre2, hsplit1]
    have hpreall : ∀ x ∈ (pre0 ++ pre1) ++ pre2, x ≤ t2 - window := by
      intro x hx
      rcases List.mem_append.mp hx with hx01 | hx2
      · rcases List.mem_append.mp hx01 with hx0 | hx1
        · exact le_trans (hpre0old x hx0) (by linarith)
        · exact le_trans (le_of_lt (hpre1old x hx1)) (by linarith)
      · exact le_of_lt (hpre2old x hx2)
    refine ⟨?_, ?_, ?_, ?_, ?_, ?_⟩ <;> rw [heq]
    · exact inv.delay_zero
    · refine List.pairwise_append.mpr ⟨hsort1.sublist hsub2, List.pairwise_singleton _ _, ?_⟩
      intro a ha b hb
      rw [List.mem_singleton] at hb
      subst hb
      exact le_trans (hle1 a (hsub2.subset ha)) hnow_le_t2
    · intro x hx
      rcases List.mem_append.mp hx with hx2 | hxt
      · exact le_trans (hle1 x (hsub2.subset hx2)) hnow_le_t2
      · rw [List.mem_singleton] at hxt
        subst hxt
        exact le_refl _
    · rw [List.length_append, List.length_singleton]
      exact hlen2
    · exact ⟨(pre0 ++ pre1) ++ pre2, by rw [← List.append_assoc, hsplit2], hpreall⟩
    · exact grantedInWindow_append maxRequests window t2 ((pre0 ++ pre1) ++ pre2)
        (cleanupOldRequests window t2 (cleanupOldRequests window s.now s.history))
        s.granted hsplit2 hpreall hlen2 inv.window_count
  · -- under the limit: append the current time directly
    have heq : waitForEndpointLimit maxRequests window s =
        { history := cleanupOldRequests window s.now s.history ++ [s.now],
          retryDelay := s.retryDelay, now := s.now,
          granted := s.granted ++ [s.now] } := by
      rw [waitForEndpointLimit]
      simp only [if_neg hdn, if_neg hcap]
    have hpreall : ∀ x ∈ pre0 ++ pre1, x ≤ s.now - window := by
      intro x hx
      rcases List.mem_append.mp hx with hx0 | hx1
      · exact hpre0old x hx0
      · exact le_of_lt (hpre1old x hx1)
    have hlen2 : (cleanupOldRequests window s.now s.history).length + 1 ≤
        maxRequests := by omega
    refine ⟨?_, ?_, ?_, ?_, ?_, ?_⟩ <;> rw [heq]
    · exact inv.delay_zero
    · refine List.pairwise_append.mpr ⟨hsort1, List.pairwise_singleton _ _, ?_⟩
      intro a ha b hb
      rw [List.mem_singleton] at hb
      subst hb
      exact hle1 a ha
    · intro x hx
      rcases List.mem_append.mp hx with hx1 | hxt
      · exact hle1 x hx1
      · rw [List.mem_singleton] at hxt
        subst hxt
        exact le_refl _
    · rw [List.length_append, List.length_singleton]
      exact hlen2
    · exact ⟨pre0 ++ pre1, by rw [← List.append_assoc, hsplit1], hpreall⟩
    · exact grantedInWindow_append maxRequests window s.now (pre0 ++ pre1)
        (cleanupOldRequests window s.now s.history) s.granted hsplit1 hpreall
        hlen2 inv.window_count

/-- Idle time preserves the limiter invariant. -/
theorem inv_time_advance (maxRequests : ℕ) (window : ℚ) (s : RateLimiterState)
    (inv : LimiterInv maxRequests window s) (gap : ℚ) (hgap : 0 ≤ gap) :
    LimiterInv maxRequests window { s with now := s.now + gap } := by
  obtain ⟨pre, hpre, hpreold⟩ := inv.granted_split
  refine ⟨inv.delay_zero, inv.hist_sorted, ?_, inv.hist_len,
    ⟨pre, hpre, ?_⟩, inv.window_count⟩
  · intro x hx
    show x ≤ s.now + gap
    have := inv.hist_le_now x hx
    linarith
  · intro x hx
    show x ≤ s.now + gap - window
    have := hpreold x hx
    linarith

/-- Resetting the backoff to a value equal to zero (and sleeping it) preserves
the limiter invariant. -/
theorem inv_delay_reset (maxRequests : ℕ) (window : ℚ) (s : RateLimiterState)
    (inv : LimiterInv maxRequests window s) (d : ℚ) (hd : d = 0) :
    LimiterInv maxRequests window
      { s with retryDelay := d, now := s.now + d } := by
  subst hd
  obtain ⟨pre, hpre, hpreold⟩ := inv.granted_split
  refine ⟨rfl, inv.hist_sorted, ?_, inv.hist_len,
    ⟨pre, hpre, ?_⟩, inv.window_count⟩
  · intro x hx
    show x ≤ s.now + 0
    have := inv.hist_le_now x hx
    linarith
  · intro x hx
    show x ≤ s.now + 0 - window
    have := hpreold x hx
    linarith

/-- `handle_rate_limit_error` preserves the limiter invariant: with the stored
backoff at `0`, the exponential branch computes `min(0 * 2, 300) = 0` and a
`retry_after` hint only advances the clock. -/
theorem inv_handle (maxRequests : ℕ) (window : ℚ) (s : RateLimiterState)
    (inv : LimiterInv maxRequests window s) (retryAfter : Option ℚ)
    (hra : ∀ r ∈ retryAfter, 0 ≤ r) :
    LimiterInv maxRequests window (handleRateLimitError retryAfter s) := by
  have hmin : min (s.retryDelay * 2) 300 = 0 := by
    rw [inv.delay_zero]
    norm_num
  cases retryAfter with
  | none => exact inv_delay_reset maxRequests window s inv _ hmin
  | some r =>
    by_cases hr : r ≠ 0
    · have h1 : handleRateLimitError (some r) s = { s with now := s.now + r } :=
        if_pos hr
      rw [h1]
      exact inv_time_advance maxRequests window s inv r (hra r rfl)
    · have h1 : handleRateLimitError (some r) s =
          { s with retryDelay := min (s.retryDelay * 2) 300,
                   now := s.now + min (s.retryDelay * 2) 300 } := if_neg hr
      rw [h1]
      exact inv_delay_reset maxRequests window s inv _ hmin

/-- The initial state satisfies the limiter invariant. -/
theorem inv_init (maxRequests : ℕ) (window t0 : ℚ) :
    LimiterInv maxRequests window (initLimiterState t0) := by
  refine ⟨rfl, List.Pairwise.nil, ?_, ?_, ⟨[], rfl, ?_⟩, ?_⟩
  · intro x hx; cases hx
  · simp [initLimiterState]
  · intro x hx; cases hx
  · intro t
    rw [grantedInWindow]
    simp [initLimiterState]

/-- Any well-formed interaction sequence preserves the limiter invariant. -/
theorem inv_run (maxRequests : ℕ) (window : ℚ) (hm : 1 ≤ maxRequests) :
    ∀ (ops : List LimiterOp) (s : RateLimiterState),
      LimiterInv maxRequests window s → (∀ op ∈ ops, op.wf) →
      LimiterInv maxRequests window (limiterRun maxRequests window ops s) := by
  intro ops
  induction ops with
  | nil => intro s inv _; exact inv
  | cons op t ih =>
    intro s inv hwf
    rw [limiterRun, List.foldl_cons]
    have hop := hwf op (List.mem_cons_self op t)
    have hstep : LimiterInv maxRequests window
        (limiterStep maxRequests window s op) := by
      cases op with
      | acquire gap =>
        exact inv_acquire maxRequests window _
          (inv_time_advance maxRequests window s inv gap hop) hm
      | rateLimitError gap retryAfter =>
        exact inv_handle maxRequests window _
          (inv_time_advance maxRequests window s inv gap hop.1) retryAfter hop.2
    exact ih _ hstep (fun o ho => hwf o (List.mem_cons_of_mem op ho))

/-- C1: for every per-endpoint limit `maxRequests ≥ 1` and every well-formed
sequence of `acquire` / `handle_rate_limit_error` interactions starting from a
fresh limiter, (i) the live history never exceeds `maxRequests` entries, (ii)
at most `maxRequests` admitted timestamps fall inside any rolling
`window`-second interval `(t - window, t]`, and (iii) running
`_cleanup_old_requests` at any time `t'` leaves at most `maxRequests`
entries — so the bound holds after cleanup, before a new timestamp is
appended. -/
theorem c1_sliding_window_bound (maxRequests : ℕ) (window t0 : ℚ)
    (ops : List LimiterOp) (hm : 1 ≤ maxRequests)
    (hops : ∀ op ∈ ops, op.wf) :
    (limiterRun maxRequests window ops (initLimiterState t0)).history.length ≤
      maxRequests ∧
    (∀ t : ℚ, grantedInWindow window t
      (limiterRun maxRequests window ops (initLimiterState t0)).granted ≤
      maxRequests) ∧
    (∀ t' : ℚ, (cleanupOldRequests window t'
      (limiterRun maxRequests window ops (initLimiterState t0)).history).length ≤
      maxRequests) := by
  have inv := inv_run maxRequests window hm ops (initLimiterState t0)
    (inv_init maxRequests window t0) hops
  refine ⟨inv.hist_len, inv.window_count, ?_⟩
  intro t'
  exact le_trans (cleanup_length_le window t' _) inv.hist_len

/-- Witness for C1: limit 1, window 60 s, two back-to-back acquires.  The
second acquire is made to wait: the run ends with one live history entry and
at most one admission in the window ending at the second admission time. -/
theorem c1_sliding_window_bound_witness :
    (limiterRun 1 60 [LimiterOp.acquire 0, LimiterOp.acquire 0]
      (initLimiterState 0)).history.length ≤ 1 ∧
    grantedInWindow 60 (601 / 10)
      (limiterRun 1 60 [LimiterOp.acquire 0, LimiterOp.acquire 0]
        (initLimiterState 0)).granted ≤ 1 ∧
    (cleanupOldRequests 60 (601 / 10)
      (limiterRun 1 60 [LimiterOp.acquire 0, LimiterOp.acquire 0]
        (initLimiterState 0)).history).length ≤ 1 := by
  have h := c1_sliding_window_bound 1 60 0
    [LimiterOp.acquire 0, LimiterOp.acquire 0] le_rfl ?_
  · exact ⟨h.1, h.2.1 (601 / 10), h.2.2 (601 / 10)⟩
  · intro op hop
    rcases List.mem_cons.mp hop with rfl | hop
    · exact le_rfl
    · rcases List.mem_cons.mp hop with rfl | hop
      · exact le_rfl
      · cases hop
